import Mathlib

/-!
Verification of the saphir declarative routing / OpenAPI-synthesis core.

The repository's `src/saphir/src/macros.rs` only documents and re-exports the
proc-macro implementation; the executable routing, guard-chain and
response-spec merge logic lives outside `src/`.  Following the spec
(`spec.md`), each component below is therefore modelled from the spec's words
and the claims are settled against that model.
-/

namespace Saphir

/-- Modelled from the spec: a Pattern segment — `Static(text)` or `Param(name)`,
plus the trailing wildcard the spec's matcher allows.  The path-template code
of `saphir_macro` is missing from `src/`. -/
inductive Seg where
  | static (text : String)
  | param (name : String)
  | wildcard
deriving DecidableEq, Repr

/-- Modelled from the spec: a Pattern is an ordered sequence of segments. -/
abbrev Pattern := List Seg

/-- Modelled from the spec: the authoring-time fatal errors `MalformedPath`
and `RouteConflict` (spec section 7); the implementation is missing from
`src/`. -/
inductive RouteError where
  | malformedPath
  | routeConflict
deriving DecidableEq, Repr

/-- Modelled from the spec: splitting a path string on the separator,
dropping empty components, so duplicate separators normalize away.  The
accumulator holds the current component's characters in reverse. -/
def splitPathAux : List Char → List Char → List String
  | [], acc => if acc.isEmpty then [] else [String.mk acc.reverse]
  | c :: cs, acc =>
    if c = '/' then
      if acc.isEmpty then splitPathAux cs []
      else String.mk acc.reverse :: splitPathAux cs []
    else splitPathAux cs (c :: acc)

/-- Modelled from the spec: split a path string into its non-empty
components. -/
def splitPath (s : String) : List String :=
  splitPathAux s.data []

/-- Modelled from the spec: parse one path component (as its character list)
into a segment.  A component `<name>` is a parameter (empty name is
`MalformedPath`), a stray `<` or `>` is an unbalanced delimiter
(`MalformedPath`), `*` is the trailing wildcard, anything else is a static
segment.  The parser of `saphir_macro` is missing from `src/`. -/
def parseSegChars (cs : List Char) : Except RouteError Seg :=
  if cs = ['*'] then .ok .wildcard
  else if cs.head? = some '<' ∧ cs.getLast? = some '>' then
    if (cs.drop 1).dropLast.isEmpty then .error .malformedPath
    else .ok (.param (String.mk ((cs.drop 1).dropLast)))
  else if cs.contains '<' || cs.contains '>' then .error .malformedPath
  else .ok (.static (String.mk cs))

/-- Modelled from the spec: parse one path component into a segment. -/
def parseSeg (s : String) : Except RouteError Seg :=
  parseSegChars s.data

/-- Modelled from the spec: parse a list of path components into a Pattern,
propagating the first `MalformedPath`. -/
def parseSegs : List String → Except RouteError Pattern
  | [] => .ok []
  | s :: rest =>
    match parseSeg s with
    | .error e => .error e
    | .ok seg =>
      match parseSegs rest with
      | .error e => .error e
      | .ok p => .ok (seg :: p)

deriving instance DecidableEq for Except

/-- Modelled from the spec: `parse(path) -> Pattern`, failing with
`MalformedPath` if a parameter segment is empty or delimiters are
unbalanced. -/
def parse (path : String) : Except RouteError Pattern :=
  parseSegs (splitPath path)

/-- A path component is malformed when its parameter name is empty or its
delimiters are unbalanced: the exact failure condition of `parseSegChars`. -/
def segMalformedChars (cs : List Char) : Bool :=
  if cs = ['*'] then false
  else if cs.head? = some '<' ∧ cs.getLast? = some '>' then (cs.drop 1).dropLast.isEmpty
  else cs.contains '<' || cs.contains '>'

/-- A path component is malformed when its parameter name is empty or its
delimiters are unbalanced: the exact failure condition of `parseSeg`. -/
def segMalformed (s : String) : Bool :=
  segMalformedChars s.data

/-- Modelled from the spec: `match(pattern, request_path)` compares
segment-by-segment — Static must match literally (case-sensitively), Param
binds the component to its name, a trailing wildcard greedily consumes the
remainder, and a length mismatch without a wildcard yields no match. -/
def matchSegs : Pattern → List String → Option (List (String × String))
  | [], [] => some []
  | [.wildcard], _ => some []
  | .static t :: ps, c :: cs => if t = c then matchSegs ps cs else none
  | .param n :: ps, c :: cs => (matchSegs ps cs).map (fun bs => (n, c) :: bs)
  | _, _ => none

/-- Modelled from the spec: match a full request path against a pattern. -/
def matchPattern (p : Pattern) (path : String) : Option (List (String × String)) :=
  matchSegs p (splitPath path)

theorem parseSegChars_error_iff (cs : List Char) :
    (∃ e, parseSegChars cs = .error e) ↔ segMalformedChars cs = true := by
  unfold parseSegChars segMalformedChars
  by_cases h1 : cs = ['*']
  · rw [if_pos h1, if_pos h1]; simp
  · rw [if_neg h1, if_neg h1]
    by_cases h2 : cs.head? = some '<' ∧ cs.getLast? = some '>'
    · rw [if_pos h2, if_pos h2]
      by_cases h3 : (cs.drop 1).dropLast.isEmpty = true
      · rw [if_pos h3]
        simp at h3 ⊢
        exact h3
      · rw [if_neg h3]
        simp at h3 ⊢
        exact h3
    · rw [if_neg h2, if_neg h2]
      by_cases h4 : (cs.contains '<' || cs.contains '>') = true
      · rw [if_pos h4]
        simp at h4 ⊢
        exact h4
      · rw [if_neg h4]
        simp at h4 ⊢
        exact h4

theorem parseSeg_error_iff (s : String) :
    (∃ e, parseSeg s = .error e) ↔ segMalformed s = true :=
  parseSegChars_error_iff s.data

theorem parseSegChars_error_malformed (cs : List Char) (e : RouteError)
    (h : parseSegChars cs = .error e) : e = .malformedPath := by
  unfold parseSegChars at h
  by_cases h1 : cs = ['*']
  · rw [if_pos h1] at h; exact absurd h (by simp)
  · rw [if_neg h1] at h
    by_cases h2 : cs.head? = some '<' ∧ cs.getLast? = some '>'
    · rw [if_pos h2] at h
      by_cases h3 : (cs.drop 1).dropLast.isEmpty = true
      · rw [if_pos h3] at h
        injection h with h5
        exact h5.symm
      · rw [if_neg h3] at h; exact absurd h (by simp)
    · rw [if_neg h2] at h
      by_cases h4 : (cs.contains '<' || cs.contains '>') = true
      · rw [if_pos h4] at h
        injection h with h5
        exact h5.symm
      · rw [if_neg h4] at h; exact absurd h (by simp)

theorem parseSeg_error_malformed (s : String) (e : RouteError)
    (h : parseSeg s = .error e) : e = .malformedPath :=
  parseSegChars_error_malformed s.data e h

theorem parseSegs_error_iff (l : List String) :
    (∃ e, parseSegs l = .error e) ↔ l.any segMalformed = true := by
  induction l with
  | nil => simp [parseSegs]
  | cons s rest ih =>
    simp only [List.any_cons, Bool.or_eq_true, ← ih, ← parseSeg_error_iff]
    simp only [parseSegs]
    cases hs : parseSeg s with
    | ok seg =>
      cases hr : parseSegs rest with
      | ok p => simp [hs, hr]
      | error e => simp [hs, hr]
    | error e => simp [hs]

theorem parseSegs_error_malformed (l : List String) :
    ∀ e : RouteError, parseSegs l = .error e → e = .malformedPath := by
  induction l with
  | nil => intro e h; simp [parseSegs] at h
  | cons s rest ih =>
    intro e h
    simp only [parseSegs] at h
    cases hs : parseSeg s with
    | ok seg =>
      cases hr : parseSegs rest with
      | ok p => simp [hs, hr] at h
      | error e2 =>
        simp [hs, hr] at h
        exact h ▸ ih e2 hr
    | error e2 =>
      simp [hs] at h
      exact h ▸ parseSeg_error_malformed s e2 hs

theorem matchSegs_length_mismatch (pat : Pattern) (comps : List String)
    (hw : Seg.wildcard ∉ pat) (hl : pat.length ≠ comps.length) :
    matchSegs pat comps = none := by
  induction pat generalizing comps with
  | nil =>
    cases comps with
    | nil => simp at hl
    | cons c cs => simp [matchSegs]
  | cons p ps ih =>
    have hpw : p ≠ Seg.wildcard := fun h => hw (h ▸ List.mem_cons_self p ps)
    have hpsw : Seg.wildcard ∉ ps := fun h => hw (List.mem_cons_of_mem p h)
    cases comps with
    | nil =>
      cases p with
      | static t => simp [matchSegs]
      | param n => simp [matchSegs]
      | wildcard => exact absurd rfl hpw
    | cons c cs =>
      have hl2 : ps.length ≠ cs.length := by
        simpa using hl
      cases p with
      | static t =>
        simp only [matchSegs]
        by_cases ht : t = c
        · simp [ht, ih cs hpsw hl2]
        · simp [ht]
      | param n =>
        simp only [matchSegs]
        simp [ih cs hpsw hl2]
      | wildcard => exact absurd rfl hpw

/-- **C5.** `parse` fails with `MalformedPath` exactly when a component is an
empty parameter or has unbalanced delimiters (and that is the only failure);
matching is segment-by-segment and case-sensitive, a Param binds its
component, a length mismatch without a wildcard never matches, a trailing
wildcard consumes the remainder; `"/users/<id>"` against `"/users/42"`
yields `{id: "42"}` and against `"/users"` yields no match. -/
theorem C5_path_template :
    (parse "/users/<id>" = .ok [Seg.static "users", Seg.param "id"]) ∧
    (∀ p : String, (∃ e, parse p = .error e) ↔ (splitPath p).any segMalformed = true) ∧
    (∀ (p : String) (e : RouteError), parse p = .error e → e = .malformedPath) ∧
    (matchPattern [Seg.static "users", Seg.param "id"] "/users/42" = some [("id", "42")]) ∧
    (matchPattern [Seg.static "users", Seg.param "id"] "/users" = none) ∧
    (∀ (pat : Pattern) (comps : List String), Seg.wildcard ∉ pat →
      pat.length ≠ comps.length → matchSegs pat comps = none) ∧
    (matchPattern [Seg.static "users"] "/Users" = none) ∧
    (matchPattern [Seg.static "files", Seg.wildcard] "/files/a/b" = some []) := by
  refine ⟨by decide, fun p => parseSegs_error_iff (splitPath p),
    fun p e h => parseSegs_error_malformed (splitPath p) e h,
    by decide, by decide, matchSegs_length_mismatch, by decide, by decide⟩

theorem C5_path_template_witness :
    matchSegs [Seg.static "users", Seg.param "id"] ["users"] = none :=
  C5_path_template.2.2.2.2.2.1 [Seg.static "users", Seg.param "id"] ["users"]
    (by decide) (by decide)

/-- Modelled from the spec: strip a trailing `controller` keyword from an
(already lower-cased) controller identifier; part of the Route Composer
whose implementation is missing from `src/`. -/
def stripControllerChars (cs : List Char) : List Char :=
  if ("controller".data).isSuffixOf cs then cs.take (cs.length - 10) else cs

/-- Modelled from the spec: the base segment of a controller route — the
given `name` if present, else the controller identifier lower-cased with any
trailing `controller` suffix stripped. -/
def baseSegment (name : Option String) (ident : String) : String :=
  match name with
  | some n => n
  | none => String.mk (stripControllerChars (ident.data.map Char.toLower))

/-- Modelled from the spec: the components of the absolute path —
prefix components (if any), then `v{version}` (if any), then the base
segment, then the endpoint-relative components. -/
def composeSegs (pre : Option String) (ver : Option Nat) (name : Option String)
    (ident : String) (rel : String) : List String :=
  (match pre with | some p => splitPath p | none => []) ++
  (match ver with | some v => ["v" ++ toString v] | none => []) ++
  [baseSegment name ident] ++ splitPath rel

/-- Modelled from the spec: the absolute path string `/` + prefix +
`/v{version}` + base-segment + relative path, with duplicate separators
normalized away. -/
def composePathString (pre : Option String) (ver : Option Nat) (name : Option String)
    (ident : String) (rel : String) : String :=
  "/" ++ String.intercalate "/" (composeSegs pre ver name ident rel)

/-- Modelled from the spec: `compose` — the Route Composer producing the
endpoint's absolute Pattern from controller prefix/version/name and the
endpoint-relative path. -/
def compose (pre : Option String) (ver : Option Nat) (name : Option String)
    (ident : String) (rel : String) : Except RouteError Pattern :=
  parse (composePathString pre ver name ident rel)

theorem splitPathAux_append_sep (l acc : List Char) :
    splitPathAux (l ++ ['/']) acc = splitPathAux l acc := by
  induction l generalizing acc with
  | nil =>
    simp only [List.nil_append, splitPathAux, if_pos rfl]
    by_cases h : acc.isEmpty = true
    · rw [if_pos h, if_pos h]
      simp [splitPathAux]
    · rw [if_neg h, if_neg h]
      simp [splitPathAux]
  | cons c cs ih =>
    simp only [List.cons_append, splitPathAux]
    by_cases hc : c = '/'
    · rw [if_pos hc, if_pos hc]
      by_cases h : acc.isEmpty = true
      · rw [if_pos h, if_pos h]
        exact ih []
      · rw [if_neg h, if_neg h]
        exact congrArg (List.cons (String.mk acc.reverse)) (ih [])
    · rw [if_neg hc, if_neg hc]
      exact ih (c :: acc)

theorem splitPath_append_sep (s : String) : splitPath (s ++ "/") = splitPath s := by
  unfold splitPath
  rw [String.data_append]
  exact splitPathAux_append_sep s.data []

/-- **C6.** `compose` builds the absolute pattern `/` + prefix (if any) +
`/v{version}` (if any) + base-segment + relative path, where the base
segment is the given name, else the lower-cased controller identifier with
any trailing `controller` stripped; duplicate separators are normalized
deterministically, so a trailing `/` on the prefix (or on the relative
path) never changes the result — in particular composing `"/a/"` with
`"/b"` equals composing `"/a"` with `"/b"`. -/
theorem C6_route_composer :
    (∀ (p : String) (ver : Option Nat) (name : Option String) (ident rel : String),
      compose (some (p ++ "/")) ver name ident rel = compose (some p) ver name ident rel) ∧
    (∀ (pre : Option String) (ver : Option Nat) (name : Option String) (ident rel : String),
      compose pre ver name ident (rel ++ "/") = compose pre ver name ident rel) ∧
    (compose (some "/a/") none none "XController" "/b" =
      compose (some "/a") none none "XController" "/b") ∧
    (compose (some "api") (some 2) none "UserController" "/users/<id>" =
      .ok [Seg.static "api", Seg.static "v2", Seg.static "user", Seg.static "users",
        Seg.param "id"]) ∧
    (compose none none (some "my-controller") "MyController" "/" =
      .ok [Seg.static "my-controller"]) ∧
    (composePathString (some "api") (some 2) none "UserController" "/users/<id>" =
      "/api/v2/user/users/<id>") := by
  refine ⟨?_, ?_, ?_, by decide, by decide, by decide⟩
  · intro p ver name ident rel
    simp only [compose, composePathString, composeSegs, splitPath_append_sep]
  · intro pre ver name ident rel
    simp only [compose, composePathString, composeSegs, splitPath_append_sep]
  · decide

/-- Modelled from the spec: a guard step either lets the request proceed or
returns a terminal failure response; the guard-chain runner of the saphir
core is missing from `src/`. -/
inductive GuardOutcome (ρ : Type) where
  | proceed
  | fail (resp : ρ)
deriving DecidableEq, Repr

/-- The observable outcome of dispatching one request: which guards
executed (by id, in execution order), whether the handler ran, and the
endpoint's response. -/
structure RunTrace (ρ : Type) where
  executed : List Nat
  handlerRan : Bool
  response : ρ
deriving DecidableEq, Repr

/-- Modelled from the spec: run the guard chain strictly in declared order
before the handler; the first failing guard short-circuits — later guards
and the handler never run, and the failure response becomes the endpoint's
response. -/
def runChain {α ρ : Type} : List (Nat × (α → GuardOutcome ρ)) → (α → ρ) → α → RunTrace ρ
  | [], handler, req => ⟨[], true, handler req⟩
  | (i, g) :: rest, handler, req =>
    match g req with
    | .proceed =>
      let t := runChain rest handler req
      ⟨i :: t.executed, t.handlerRan, t.response⟩
    | .fail r => ⟨[i], false, r⟩

/-- **C2.** Guards run in declared order and the first failure
short-circuits: if every guard before the failing one passes, exactly the
passing guards and the failing guard execute (in declared order), no later
guard and not the handler runs, and the endpoint's response is the failing
guard's failure response. -/
theorem C2_guard_short_circuit {α ρ : Type} (pre post : List (Nat × (α → GuardOutcome ρ)))
    (i : Nat) (g : α → GuardOutcome ρ) (handler : α → ρ) (req : α) (r : ρ)
    (hpre : ∀ x ∈ pre, x.2 req = .proceed) (hfail : g req = .fail r) :
    runChain (pre ++ (i, g) :: post) handler req =
      ⟨pre.map Prod.fst ++ [i], false, r⟩ := by
  induction pre with
  | nil =>
    simp only [List.nil_append, List.map_nil, runChain, hfail]
  | cons x xs ih =>
    have hx : x.2 req = .proceed := hpre x (List.mem_cons_self x xs)
    have hxs : ∀ y ∈ xs, y.2 req = .proceed := fun y hy => hpre y (List.mem_cons_of_mem x hy)
    cases x with
    | mk j gj =>
      simp only [List.cons_append, runChain]
      simp only at hx
      rw [hx]
      simp only [List.append_eq]
      rw [ih hxs]
      simp

theorem C2_guard_short_circuit_witness :
    runChain [(1, fun _ => GuardOutcome.proceed), (2, fun _ => GuardOutcome.fail 42),
        (3, fun _ => GuardOutcome.proceed)] (fun _ => (0 : Nat)) () =
      ⟨[1, 2], false, 42⟩ :=
  C2_guard_short_circuit [(1, fun _ => GuardOutcome.proceed)]
    [(3, fun _ => GuardOutcome.proceed)] 2 (fun _ => GuardOutcome.fail 42)
    (fun _ => (0 : Nat)) () 42
    (by intro x hx; rw [List.mem_singleton] at hx; rw [hx]) rfl

/-- Modelled from the spec: the authoring-time non-fatal warnings
`UnknownMimeAlias` and `UnmatchedOverride` (spec section 7). -/
inductive Warning where
  | unknownMimeAlias (m : String)
  | unmatchedOverride
deriving DecidableEq, Repr

/-- Modelled from the spec: a type-shape descriptor — a known wrapper
around an inner shape, a raw structural description, or empty.  The
closed tagged-variant vocabulary of spec section 9. -/
inductive TypeShape where
  | empty
  | raw (descr : String)
  | wrapper (w : String) (inner : TypeShape)
deriving DecidableEq, Repr

/-- Modelled from the spec: a ResponseEntry — status code, type-shape
descriptor, optional explicit mime. -/
structure ResponseEntry where
  code : Nat
  shape : TypeShape
  mime : Option String
deriving DecidableEq, Repr

/-- Modelled from the spec: the static registry from known wrapper shapes
to canonical mime strings (a JSON-wrapper and a form-wrapper, per spec
section 4.5); the compile-time table is missing from `src/`. -/
def wrapperMimes : List (String × String) :=
  [("Json", "application/json"), ("Form", "application/x-www-form-urlencoded")]

/-- Modelled from the spec: the static registry of short mime aliases to
canonical mime strings. -/
def mimeAliases : List (String × String) :=
  [("json", "application/json"), ("form", "application/x-www-form-urlencoded")]

/-- Modelled from the spec: normalize a declared mime — a known alias maps
to its canonical mime string; a full mime string (containing a separator)
stands for itself; an unknown alias passes through verbatim with a
non-fatal `UnknownMimeAlias` warning. -/
def normalizeMime (m : String) : String × List Warning :=
  match mimeAliases.lookup m with
  | some canonical => (canonical, [])
  | none =>
    if m.data.contains '/' then (m, [])
    else (m, [Warning.unknownMimeAlias m])

/-- Modelled from the spec: normalize one declared (code, type, mime?)
triple into a ResponseEntry — a known wrapper without an explicit mime
unwraps to its inner type with the wrapper's canonical mime, and declared
mimes are normalized through the alias registry. -/
def normalizeEntry (code : Nat) (shape : TypeShape) (mime : Option String) :
    ResponseEntry × List Warning :=
  match shape, mime with
  | TypeShape.wrapper w inner, none =>
    match wrapperMimes.lookup w with
    | some canonical => (⟨code, inner, some canonical⟩, [])
    | none => (⟨code, TypeShape.wrapper w inner, none⟩, [])
  | sh, none => (⟨code, sh, none⟩, [])
  | sh, some m => (⟨code, sh, some (normalizeMime m).1⟩, (normalizeMime m).2)

/-- Modelled from the spec: the declared return shape of an endpoint
handler, over which default inference runs. -/
inductive ReturnShape where
  | plain (t : TypeShape)
  | option (inner : ReturnShape)
  | result (ok err : ReturnShape)
deriving DecidableEq, Repr

/-- Modelled from the spec: inferred default entries from the declared
return shape, applied depth-first innermost-first — `Result<T, E>` gives
`entry(200, T) + entry(500, E)`, `Option<T>` gives
`entry(200, T) + entry(404, empty)`, plain `T` gives `entry(200, T)`. -/
def infer : ReturnShape → List ResponseEntry
  | .plain t => [⟨200, t, none⟩]
  | .option s => infer s ++ [⟨404, TypeShape.empty, none⟩]
  | .result okS errS =>
    infer okS ++
      (infer errS).map (fun e => if e.code = 200 then ⟨500, e.shape, e.mime⟩ else e)

/-- Modelled from the spec: add-or-replace one entry into a ResponseSpec,
keyed by status code — an existing entry with the same code is replaced,
otherwise the entry is appended. -/
def addOrReplace (s : List ResponseEntry) (e : ResponseEntry) : List ResponseEntry :=
  if s.any (fun x => x.code = e.code) then
    s.map (fun x => if x.code = e.code then e else x)
  else s ++ [e]

/-- Modelled from the spec: one explicit `return(code = .., type = .., mime?)`
declaration; several `code =` arguments may be listed on one declaration. -/
structure ReturnDecl where
  codes : List Nat
  shape : TypeShape
  mime : Option String
deriving DecidableEq, Repr

/-- Modelled from the spec: the entries produced by one `return`
declaration — one normalized entry per listed code, each with the same
type-shape and mime. -/
def declEntries (d : ReturnDecl) : List ResponseEntry :=
  d.codes.map (fun c => (normalizeEntry c d.shape d.mime).1)

/-- Modelled from the spec: apply one explicit `return` declaration to a
ResponseSpec, add-or-replacing each of its entries by status code. -/
def applyReturn (s : List ResponseEntry) (d : ReturnDecl) : List ResponseEntry :=
  (declEntries d).foldl addOrReplace s

/-- Modelled from the spec: apply explicit `return` declarations in
declaration order; the last declaration for a given code wins. -/
def applyReturns (s : List ResponseEntry) (ds : List ReturnDecl) : List ResponseEntry :=
  ds.foldl applyReturn s

/-- Look up the entry documented for a status code (the ResponseSpec's
observable content at that code). -/
def lookupCode (s : List ResponseEntry) (c : Nat) : Option ResponseEntry :=
  s.find? (fun e => e.code = c)

/-- Modelled from the spec: one `return_override(type = .., mime?[, code])`
declaration. -/
structure OverrideDecl where
  shape : TypeShape
  mime : Option String
  code : Option Nat
deriving DecidableEq, Repr

/-- Normalized (shape, mime) carried by a `return_override`, through the
same wrapper/alias registry as explicit returns. -/
def normalizeOverride (o : OverrideDecl) : TypeShape × Option String :=
  ((normalizeEntry 0 o.shape o.mime).1.shape, (normalizeEntry 0 o.shape o.mime).1.mime)

/-- Modelled from the spec: an override matches an entry whose type-shape
matches the override's type; with a code given, only the entry with that
code. -/
def overrideMatches (o : OverrideDecl) (e : ResponseEntry) : Bool :=
  decide ((normalizeOverride o).1 = e.shape) &&
    (match o.code with
     | none => true
     | some c => decide (c = e.code))

/-- Modelled from the spec: the replacement an override performs on a
matching entry — the entry keeps its status code and takes the override's
normalized type-shape and mime. -/
def applyOverrideEntry (o : OverrideDecl) (e : ResponseEntry) : ResponseEntry :=
  ⟨e.code, (normalizeOverride o).1, (normalizeOverride o).2⟩

/-- Modelled from the spec: apply one `return_override` — it replaces the
mime/type on every matching entry (inferred or explicit); if nothing
matches it is a non-fatal no-op with an `UnmatchedOverride` warning. -/
def applyOverride (s : List ResponseEntry) (o : OverrideDecl) :
    List ResponseEntry × List Warning :=
  if s.any (overrideMatches o) then
    (s.map (fun e => if overrideMatches o e then applyOverrideEntry o e else e), [])
  else (s, [Warning.unmatchedOverride])

/-- Modelled from the spec: apply `return_override` declarations in order,
discarding the warnings. -/
def applyOverrides (s : List ResponseEntry) (os : List OverrideDecl) : List ResponseEntry :=
  os.foldl (fun acc o => (applyOverride acc o).1) s

/-- Modelled from the spec: the fixed merge order of the Response Spec
Model — (1) inference from the return shape, (2) explicit `return`
declarations by code, (3) `return_override` by type, last. -/
def mergeResponseSpec (shape : ReturnShape) (rets : List ReturnDecl)
    (ovs : List OverrideDecl) : List ResponseEntry :=
  applyOverrides (applyReturns (infer shape) rets) ovs

theorem normalizeEntry_code (c : Nat) (sh : TypeShape) (m : Option String) :
    (normalizeEntry c sh m).1.code = c := by
  cases sh <;> cases m <;>
    first
    | rfl
    | (rename_i w inner
       cases hw : wrapperMimes.lookup w <;> simp [normalizeEntry, hw])

/-- **C1.** The endpoint return shape `Result<Option<String>, MyError>`
with no explicit `return` declarations (hence no declaration order to
vary) merges, by depth-first innermost-first inference, to exactly the
three entries `{200: String, 404: empty, 500: MyError}`. -/
theorem C1_inference_result_option :
    mergeResponseSpec
      (ReturnShape.result (ReturnShape.option (ReturnShape.plain (TypeShape.raw "String")))
        (ReturnShape.plain (TypeShape.raw "MyError"))) [] [] =
      [⟨200, TypeShape.raw "String", none⟩, ⟨404, TypeShape.empty, none⟩,
        ⟨500, TypeShape.raw "MyError", none⟩] := by decide

/-- **C8.** `return(code = 200, type = "Json<MyType>")`,
`return(code = 200, type = "MyType", mime = "json")` and
`return(code = 200, type = "MyType", mime = "application/json")` all
normalize to the identical ResponseEntry
`⟨200, MyType, application/json⟩`; a mime alias absent from the static
registry passes through verbatim with a non-fatal `UnknownMimeAlias`
warning. -/
theorem C8_mime_normalization :
    ((normalizeEntry 200 (TypeShape.wrapper "Json" (TypeShape.raw "MyType")) none).1 =
      ⟨200, TypeShape.raw "MyType", some "application/json"⟩) ∧
    ((normalizeEntry 200 (TypeShape.raw "MyType") (some "json")).1 =
      ⟨200, TypeShape.raw "MyType", some "application/json"⟩) ∧
    ((normalizeEntry 200 (TypeShape.raw "MyType") (some "application/json")).1 =
      ⟨200, TypeShape.raw "MyType", some "application/json"⟩) ∧
    (∀ m : String, mimeAliases.lookup m = none → m.data.contains '/' = false →
      normalizeMime m = (m, [Warning.unknownMimeAlias m])) := by
  refine ⟨by decide, by decide, by decide, ?_⟩
  intro m h1 h2
  unfold normalizeMime
  rw [h1, h2]
  simp

theorem C8_mime_normalization_witness :
    normalizeMime "yaml" = ("yaml", [Warning.unknownMimeAlias "yaml"]) :=
  C8_mime_normalization.2.2.2 "yaml" (by decide) (by decide)

/-- **C10.** One `return` declaration listing several status codes
produces one entry per listed code, each with the same type-shape and
mime, exactly as if a separate `return` declaration had been written for
each code; e.g. `return(type = "MyJsonError", mime = "json", code = 404,
code = 500)` yields the 404 and the 500 entry. -/
theorem C10_multi_code_return :
    (∀ (s : List ResponseEntry) (t : TypeShape) (m : Option String) (l₁ l₂ : List Nat),
      applyReturn s ⟨l₁ ++ l₂, t, m⟩ = applyReturns s [⟨l₁, t, m⟩, ⟨l₂, t, m⟩]) ∧
    (∀ (t : TypeShape) (m : Option String) (l : List Nat),
      (declEntries ⟨l, t, m⟩).map (fun e => e.code) = l) ∧
    (applyReturn [] ⟨[404, 500], TypeShape.raw "MyJsonError", some "json"⟩ =
      [⟨404, TypeShape.raw "MyJsonError", some "application/json"⟩,
        ⟨500, TypeShape.raw "MyJsonError", some "application/json"⟩]) := by
  refine ⟨?_, ?_, by decide⟩
  · intro s t m l₁ l₂
    simp [applyReturn, applyReturns, declEntries, List.foldl_append]
  · intro t m l
    simp [declEntries, List.map_map]
    exact List.map_congr_left (fun c _ => normalizeEntry_code c t m) |>.trans (List.map_id l)

theorem find?_code_map_replace (s : List ResponseEntry) (e : ResponseEntry) (c : Nat)
    (hne : c ≠ e.code) :
    (s.map (fun x => if x.code = e.code then e else x)).find? (fun x => x.code = c) =
      s.find? (fun x => x.code = c) := by
  induction s with
  | nil => rfl
  | cons x xs ih =>
    rw [List.map_cons]
    by_cases hx : x.code = e.code
    · rw [if_pos hx,
        List.find?_cons_of_neg _ (by simp only [decide_eq_true_eq]; exact fun h => hne h.symm),
        List.find?_cons_of_neg _ (by
          simp only [decide_eq_true_eq, hx]; exact fun h => hne h.symm), ih]
    · rw [if_neg hx]
      by_cases hxc : x.code = c
      · rw [List.find?_cons_of_pos _ (by simp [hxc]), List.find?_cons_of_pos _ (by simp [hxc])]
      · rw [List.find?_cons_of_neg _ (by simp [hxc]),
          List.find?_cons_of_neg _ (by simp [hxc]), ih]

theorem find?_code_map_replace_eq (s : List ResponseEntry) (e : ResponseEntry)
    (hany : s.any (fun x => x.code = e.code) = true) :
    (s.map (fun x => if x.code = e.code then e else x)).find?
      (fun x => x.code = e.code) = some e := by
  induction s with
  | nil => simp at hany
  | cons x xs ih =>
    rw [List.map_cons]
    by_cases hx : x.code = e.code
    · rw [if_pos hx, List.find?_cons_of_pos _ (by simp)]
    · rw [if_neg hx, List.find?_cons_of_neg _ (by simp [hx])]
      apply ih
      simpa [hx] using hany

theorem lookup_addOrReplace (s : List ResponseEntry) (e : ResponseEntry) (c : Nat) :
    lookupCode (addOrReplace s e) c = if c = e.code then some e else lookupCode s c := by
  unfold addOrReplace lookupCode
  by_cases hany : s.any (fun x => x.code = e.code) = true
  · rw [if_pos hany]
    by_cases hc : c = e.code
    · rw [if_pos hc, hc]
      exact find?_code_map_replace_eq s e hany
    · rw [if_neg hc]
      exact find?_code_map_replace s e c hc
  · rw [if_neg hany]
    rw [List.find?_append]
    by_cases hc : c = e.code
    · rw [if_pos hc]
      have hnone : s.find? (fun x => decide (x.code = c)) = none := by
        rw [List.find?_eq_none]
        intro x hx
        simp only [decide_eq_true_eq]
        intro hxc
        exact hany (List.any_eq_true.mpr ⟨x, hx, by simp [hxc, ← hc]⟩)
      rw [hnone]
      simp [hc]
    · rw [if_neg hc]
      have h1 : List.find? (fun x => decide (x.code = c)) [e] = none := by
        rw [List.find?_cons_of_neg _ (by
          simp only [decide_eq_true_eq]; exact fun h => hc h.symm)]
        rfl
      rw [h1]
      cases s.find? (fun x => decide (x.code = c)) <;> rfl

/-- **C3.** Explicit `return` declarations merge into a ResponseSpec keyed
by status code: a declared code's entry add-or-replaces the entry with that
code, a code not declared keeps its previous entry, and when two
declarations target the same status code the later one wins — regardless
of either declaration's type-shape. -/
theorem C3_return_last_wins :
    (∀ (s : List ResponseEntry) (d : ReturnDecl) (c : Nat), c ∈ d.codes →
      lookupCode (applyReturn s d) c = some (normalizeEntry c d.shape d.mime).1) ∧
    (∀ (s : List ResponseEntry) (d : ReturnDecl) (c : Nat), c ∉ d.codes →
      lookupCode (applyReturn s d) c = lookupCode s c) ∧
    (∀ (s : List ResponseEntry) (d₁ d₂ : ReturnDecl) (c : Nat), c ∈ d₂.codes →
      lookupCode (applyReturns s [d₁, d₂]) c = some (normalizeEntry c d₂.shape d₂.mime).1) := by
  have key : ∀ (codes : List Nat) (sh : TypeShape) (m : Option String)
      (s : List ResponseEntry) (c : Nat),
      lookupCode ((codes.map (fun k => (normalizeEntry k sh m).1)).foldl addOrReplace s) c =
        if c ∈ codes then some (normalizeEntry c sh m).1 else lookupCode s c := by
    intro codes sh m
    induction codes with
    | nil => intro s c; simp
    | cons k ks ih =>
      intro s c
      rw [List.map_cons, List.foldl_cons, ih]
      by_cases hc : c ∈ ks
      · rw [if_pos hc, if_pos (List.mem_cons_of_mem k hc)]
      · rw [if_neg hc, lookup_addOrReplace]
        rw [normalizeEntry_code]
        by_cases hk : c = k
        · rw [if_pos hk, if_pos (hk ▸ List.mem_cons_self k ks), hk]
        · rw [if_neg hk, if_neg (by simp [hk, hc])]
  refine ⟨?_, ?_, ?_⟩
  · intro s d c hc
    rw [applyReturn, declEntries, key]
    rw [if_pos hc]
  · intro s d c hc
    rw [applyReturn, declEntries, key]
    rw [if_neg hc]
  · intro s d₁ d₂ c hc
    rw [applyReturns, List.foldl_cons, List.foldl_cons, List.foldl_nil]
    rw [applyReturn, declEntries, key]
    rw [if_pos hc]

theorem C3_return_last_wins_witness :
    lookupCode (applyReturns []
      [⟨[200], TypeShape.raw "A", none⟩, ⟨[200], TypeShape.raw "B", none⟩]) 200 =
      some ⟨200, TypeShape.raw "B", none⟩ :=
  C3_return_last_wins.2.2 [] ⟨[200], TypeShape.raw "A", none⟩
    ⟨[200], TypeShape.raw "B", none⟩ 200 (by decide)

theorem overrideMatches_upd (o : OverrideDecl) (e : ResponseEntry)
    (h : overrideMatches o e = true) :
    overrideMatches o (applyOverrideEntry o e) = true := by
  unfold overrideMatches at h ⊢
  unfold applyOverrideEntry
  rw [Bool.and_eq_true] at h ⊢
  exact ⟨by simp, h.2⟩

theorem C9_override_idempotent (s : List ResponseEntry) (o : OverrideDecl) :
    (applyOverride (applyOverride s o).1 o).1 = (applyOverride s o).1 := by
  have step : ∀ t : List ResponseEntry, t.any (overrideMatches o) = true →
      (applyOverride t o).1 =
        t.map (fun e => if overrideMatches o e then applyOverrideEntry o e else e) := by
    intro t ht
    unfold applyOverride
    rw [if_pos ht]
  by_cases h : s.any (overrideMatches o) = true
  · have hg : ∀ e : ResponseEntry,
        overrideMatches o (if overrideMatches o e then applyOverrideEntry o e else e) =
          overrideMatches o e := by
      intro e
      by_cases he : overrideMatches o e = true
      · rw [if_pos he, overrideMatches_upd o e he, he]
      · rw [if_neg he]
    have hfst := step s h
    have hany2 : ((applyOverride s o).1).any (overrideMatches o) = true := by
      rw [hfst, List.any_map]
      have hcomp : (overrideMatches o ∘
          fun e => if overrideMatches o e then applyOverrideEntry o e else e) =
          overrideMatches o := funext hg
      rw [hcomp]
      exact h
    rw [step _ hany2, hfst, List.map_map]
    apply List.map_congr_left
    intro e _
    by_cases he : overrideMatches o e = true
    · simp only [Function.comp_apply, if_pos he, overrideMatches_upd o e he, if_true]
      rfl
    · simp only [Function.comp_apply, if_neg he]
  · have hfst : (applyOverride s o).1 = s := by
      unfold applyOverride
      rw [if_neg h]
    rw [hfst]
    exact hfst

/-- **C4.** A `return_override` is applied after inference and explicit
returns; with no code given it replaces the type/mime of every entry
(inferred or explicit) whose type-shape matches, with a code given only
the entry with that code, and when no entry matches it leaves the
ResponseSpec unchanged as a non-fatal no-op with an `UnmatchedOverride`
warning. -/
theorem C4_override_application :
    (∀ (s : List ResponseEntry) (o : OverrideDecl), o.code = none →
      s.any (overrideMatches o) = true →
      (applyOverride s o).1 = s.map (fun e =>
        if (normalizeOverride o).1 = e.shape then applyOverrideEntry o e else e)) ∧
    (∀ (s : List ResponseEntry) (o : OverrideDecl) (c : Nat), o.code = some c →
      s.any (overrideMatches o) = true →
      (applyOverride s o).1 = s.map (fun e =>
        if (normalizeOverride o).1 = e.shape ∧ c = e.code then applyOverrideEntry o e
        else e)) ∧
    (∀ (s : List ResponseEntry) (o : OverrideDecl),
      (∀ e ∈ s, overrideMatches o e = false) →
      applyOverride s o = (s, [Warning.unmatchedOverride])) ∧
    (∀ (sh : ReturnShape) (rets : List ReturnDecl) (ovs : List OverrideDecl),
      mergeResponseSpec sh rets ovs = applyOverrides (applyReturns (infer sh) rets) ovs) ∧
    (applyOverride
        [⟨200, TypeShape.raw "String", none⟩, ⟨500, TypeShape.raw "MyError", none⟩,
          ⟨404, TypeShape.raw "MyError", some "text/plain"⟩]
        ⟨TypeShape.raw "MyError", some "application/json", none⟩ =
      ([⟨200, TypeShape.raw "String", none⟩,
          ⟨500, TypeShape.raw "MyError", some "application/json"⟩,
          ⟨404, TypeShape.raw "MyError", some "application/json"⟩], [])) := by
  refine ⟨?_, ?_, ?_, fun _ _ _ => rfl, by decide⟩
  · intro s o hcode hany
    unfold applyOverride
    rw [if_pos hany]
    apply List.map_congr_left
    intro e _
    by_cases hsh : (normalizeOverride o).1 = e.shape
    · rw [if_pos (by simp [overrideMatches, hcode, hsh]), if_pos hsh]
    · rw [if_neg (by simp [overrideMatches, hcode, hsh]), if_neg hsh]
  · intro s o c hcode hany
    unfold applyOverride
    rw [if_pos hany]
    apply List.map_congr_left
    intro e _
    by_cases hsh : (normalizeOverride o).1 = e.shape
    · by_cases hc : c = e.code
      · rw [if_pos (by simp [overrideMatches, hcode, hsh, hc]), if_pos ⟨hsh, hc⟩]
      · rw [if_neg (by simp [overrideMatches, hcode, hsh, hc]),
          if_neg (fun hand => hc hand.2)]
    · rw [if_neg (by simp [overrideMatches, hcode, hsh]),
        if_neg (fun hand => hsh hand.1)]
  · intro s o hall
    unfold applyOverride
    rw [if_neg (fun htrue => by
      obtain ⟨e, he, hm⟩ := List.any_eq_true.mp htrue
      rw [hall e he] at hm
      cases hm)]

theorem C4_override_application_witness :
    applyOverride [⟨200, TypeShape.raw "A", none⟩]
        ⟨TypeShape.raw "B", some "application/json", none⟩ =
      ([⟨200, TypeShape.raw "A", none⟩], [Warning.unmatchedOverride]) :=
  C4_override_application.2.2.1 [⟨200, TypeShape.raw "A", none⟩]
    ⟨TypeShape.raw "B", some "application/json", none⟩ (by decide)

/-- Modelled from the spec: an endpoint as the Dispatch Table sees it —
its HTTP method and its absolute Pattern.  The table builder of the saphir
core is missing from `src/`. -/
structure EndpointDef where
  method : String
  pattern : Pattern
deriving DecidableEq, Repr

/-- Modelled from the spec: the conflict key of a segment — parameter
names do not disambiguate routes, so every Param collapses to the same
key. -/
def segKey : Seg → Seg
  | .param _ => .param ""
  | s => s

/-- Modelled from the spec: the conflict key of an endpoint — its
(method, Pattern) with parameter names erased. -/
def routeKey (e : EndpointDef) : String × Pattern :=
  (e.method, e.pattern.map segKey)

/-- Modelled from the spec: whether two registered endpoints collide —
an identical (method, Pattern) up to parameter names. -/
def hasConflict : List EndpointDef → Bool
  | [] => false
  | e :: rest => rest.any (fun x => routeKey x = routeKey e) || hasConflict rest

/-- Modelled from the spec: `build(controllers) -> DispatchTable`, failing
with the fatal `RouteConflict` when two endpoints yield an identical
(method, Pattern) with overlapping parameter arity. -/
def build (es : List EndpointDef) : Except RouteError (List EndpointDef) :=
  if hasConflict es then .error .routeConflict else .ok es

/-- Modelled from the spec: `lookup(method, path)` on a built table — the
first endpoint whose method matches (`any` accepts every method) and whose
pattern matches the path, together with its parameter bindings. -/
def lookupRoute (t : List EndpointDef) (m path : String) :
    Option (EndpointDef × List (String × String)) :=
  match t with
  | [] => none
  | e :: rest =>
    if e.method = m ∨ e.method = "any" then
      match matchSegs e.pattern (splitPath path) with
      | some bs => some (e, bs)
      | none => lookupRoute rest m path
    else lookupRoute rest m path

/-- Modelled from the spec: dispatch against the result of `build` — a
failed build is fatal, so no request is ever served from it. -/
def serve (r : Except RouteError (List EndpointDef)) (m path : String) :
    Option (EndpointDef × List (String × String)) :=
  match r with
  | .error _ => none
  | .ok t => lookupRoute t m path

theorem hasConflict_iff_not_pairwise (es : List EndpointDef) :
    hasConflict es = true ↔
      ¬ es.Pairwise (fun a b => routeKey a ≠ routeKey b) := by
  induction es with
  | nil => simp [hasConflict]
  | cons e rest ih =>
    simp only [hasConflict, Bool.or_eq_true, List.pairwise_cons, ih, List.any_eq_true,
      decide_eq_true_eq]
    constructor
    · rintro (⟨x, hx, hkey⟩ | hnp)
      · exact fun hand => hand.1 x hx hkey.symm
      · exact fun hand => hnp hand.2
    · intro hn
      by_cases hp : rest.Pairwise (fun a b => routeKey a ≠ routeKey b)
      · left
        have hne : ¬ ∀ x ∈ rest, routeKey e ≠ routeKey x := fun hall => hn ⟨hall, hp⟩
        push_neg at hne
        obtain ⟨x, hx, hkey⟩ := hne
        exact ⟨x, hx, hkey.symm⟩
      · right; exact hp

/-- **C7.** `build` fails with the fatal `RouteConflict` exactly when two
registered endpoints yield an identical (method, Pattern) with overlapping
parameter arity — parameter names do not disambiguate, so `GET "/a/<x>"`
together with `GET "/a/<y>"` conflicts — and no request is ever served
from a failed build. -/
theorem C7_route_conflict :
    (build [⟨"GET", [Seg.static "a", Seg.param "x"]⟩,
        ⟨"GET", [Seg.static "a", Seg.param "y"]⟩] = .error .routeConflict) ∧
    (∀ es : List EndpointDef, build es = .error .routeConflict ↔
      ∃ (i j : Nat) (hi : i < es.length) (hj : j < es.length), i < j ∧
        routeKey (es.get ⟨i, hi⟩) = routeKey (es.get ⟨j, hj⟩)) ∧
    (∀ (es : List EndpointDef) (err : RouteError) (m p : String),
      build es = .error err → serve (build es) m p = none) := by
  refine ⟨by decide, ?_, ?_⟩
  · intro es
    unfold build
    by_cases hc : hasConflict es = true
    · rw [if_pos hc]
      simp only [true_iff]
      have hnp := (hasConflict_iff_not_pairwise es).mp hc
      rw [List.pairwise_iff_getElem] at hnp
      push_neg at hnp
      obtain ⟨i, j, hi, hj, hij, hkey⟩ := hnp
      exact ⟨i, j, hi, hj, hij, hkey⟩
    · rw [if_neg hc]
      simp only [Bool.not_eq_true] at hc
      constructor
      · intro h; cases h
      · rintro ⟨i, j, hi, hj, hij, hkey⟩
        exfalso
        have hp : es.Pairwise (fun a b => routeKey a ≠ routeKey b) := by
          by_contra hnp
          rw [← hasConflict_iff_not_pairwise] at hnp
          rw [hnp] at hc
          cases hc
        rw [List.pairwise_iff_getElem] at hp
        exact hp i j hi hj hij hkey
  · intro es err m p hbuild
    rw [hbuild]
    rfl

theorem C7_route_conflict_witness :
    serve (build [⟨"GET", [Seg.static "a", Seg.param "x"]⟩,
        ⟨"GET", [Seg.static "a", Seg.param "y"]⟩]) "GET" "/a/b" = none :=
  C7_route_conflict.2.2 [⟨"GET", [Seg.static "a", Seg.param "x"]⟩,
      ⟨"GET", [Seg.static "a", Seg.param "y"]⟩] RouteError.routeConflict "GET" "/a/b"
    C7_route_conflict.1

end Saphir
